import Mathlib

/-!
Verification of the Texter SMS agent core (shallow embedding).

The definitions below are translated from the repository's Python sources:

* `src/src/security.py` — `RateLimiter.check_rate_limit`, `InputSanitizer`,
  `TwilioValidator.validate_request` / `_compute_signature`,
  `SecurityManager.validate_and_sanitize_request`;
* `src/src/memory.py` — `FirestoreChatMessageHistory.add_message`, `.messages`,
  `._load_messages`, `._is_conversation_expired`, `.clear`;
* `src/src/sms_handler.py` — `SMSHandler.process_message`,
  `_is_special_command`, `_handle_special_command`,
  `_create_twiml_response`, `_create_multi_message_response`;
* `src/main.py` — `handle_sms_webhook`, `_extract_sms_data`;
* `src/src/agent.py` — `SMSAgent.process_message` (memory side effects; the
  LLM call itself is kept abstract as a function parameter).

Python strings are modelled as `List Char`, wall-clock timestamps
(`time.time()` floats) as rationals `ℚ`, and byte strings as `List ℕ`
(each element < 256).
-/

/-! ### Python string helpers

`pyIsWs` matches the ASCII whitespace characters removed by Python's
`str.strip()`; `pyStrip` trims them from both ends, and `pyLower` is
`str.lower()` (ASCII case mapping, which is all the repository relies on). -/

def pyIsWs (c : Char) : Bool :=
  c = ' ' || c = '\t' || c = '\n' || c = '\x0b' || c = '\x0c' || c = '\r'

def pyStrip (l : List Char) : List Char :=
  ((l.dropWhile pyIsWs).reverse.dropWhile pyIsWs).reverse

def pyLower (l : List Char) : List Char := l.map Char.toLower

/-! ### Rate limiter

Embedding of `RateLimiter.check_rate_limit` (src/src/security.py, lines
109-164).  A deque of timestamps is a `List ℚ` with the oldest entry first;
`_clean_old_requests` pops from the front while the head is older than the
window, which is exactly `List.dropWhile`.  A raised `RateLimitError` is the
`Except.error` branch carrying the formatted message. -/

structure RLState where
  minuteQ : List ℚ
  hourQ : List ℚ
deriving DecidableEq

def purge (q : List ℚ) (cutoff : ℚ) : List ℚ :=
  q.dropWhile fun t => decide (t < cutoff)

def natChars (n : ℕ) : List Char := Nat.toDigits 10 n

def rateLimitMinuteMsg (limit : ℕ) : List Char :=
  "Rate limit exceeded: ".data ++ natChars limit ++ " messages per minute".data

def rateLimitHourMsg (limit : ℕ) : List Char :=
  "Rate limit exceeded: ".data ++ natChars limit ++ " messages per hour".data

def checkRateLimit (perMinute perHour : ℕ) (s : RLState) (now : ℚ) :
    Except (List Char) Bool × RLState :=
  let mq := purge s.minuteQ (now - 60)
  if perMinute ≤ mq.length then
    (Except.error (rateLimitMinuteMsg perMinute), { s with minuteQ := mq })
  else
    let hq := purge s.hourQ (now - 3600)
    if perHour ≤ hq.length then
      (Except.error (rateLimitHourMsg perHour), ⟨mq, hq⟩)
    else
      (Except.ok true, ⟨mq ++ [now], hq ++ [now]⟩)

theorem purge_keep {t c : ℚ} (q : List ℚ) (h : ¬ t < c) : purge (t :: q) c = t :: q := by
  simp [purge, List.dropWhile_cons, h]

theorem purge_drop_head {t c : ℚ} (q : List ℚ) (h : t < c) : purge (t :: q) c = purge q c := by
  simp [purge, List.dropWhile_cons, h]

theorem purge_length_le (q : List ℚ) (c : ℚ) : (purge q c).length ≤ q.length :=
  (List.dropWhile_sublist _).length_le

/-- C10: the admission check never produces `ok false`: it either admits the
request, appending `now` to both the (purged) minute and hour windows, or it
raises a `RateLimitError`; in the error case no timestamp is recorded — the
minute window is merely purged, and the hour window is untouched (minute
denial) or merely purged (hour denial). -/
theorem c10_check_rate_limit_total (pm ph : ℕ) (s : RLState) (now : ℚ) :
    (checkRateLimit pm ph s now =
        (Except.ok true,
          ⟨purge s.minuteQ (now - 60) ++ [now], purge s.hourQ (now - 3600) ++ [now]⟩) ∧
      (purge s.minuteQ (now - 60)).length < pm ∧
      (purge s.hourQ (now - 3600)).length < ph) ∨
    (checkRateLimit pm ph s now =
        (Except.error (rateLimitMinuteMsg pm), ⟨purge s.minuteQ (now - 60), s.hourQ⟩) ∧
      pm ≤ (purge s.minuteQ (now - 60)).length) ∨
    (checkRateLimit pm ph s now =
        (Except.error (rateLimitHourMsg ph),
          ⟨purge s.minuteQ (now - 60), purge s.hourQ (now - 3600)⟩) ∧
      ph ≤ (purge s.hourQ (now - 3600)).length) := by
  by_cases h1 : pm ≤ (purge s.minuteQ (now - 60)).length
  · refine Or.inr (Or.inl ⟨?_, h1⟩)
    simp [checkRateLimit, h1]
  · by_cases h2 : ph ≤ (purge s.hourQ (now - 3600)).length
    · refine Or.inr (Or.inr ⟨?_, h2⟩)
      simp [checkRateLimit, h1, h2]
    · refine Or.inl ⟨?_, by omega, by omega⟩
      simp [checkRateLimit, h1, h2]

/-- C4: with the per-minute limit 5 (and per-hour limit 50), five admission
checks for one identity at times `t1 ≤ … ≤ t5` within 10 seconds all succeed,
a sixth check at `t6` still inside the 60-second window of `t1` is denied
with the per-minute error and records nothing, and a seventh check at
`t7 > t1 + 60` succeeds again. -/
theorem c4_minute_window_scenario (t1 t2 t3 t4 t5 t6 t7 : ℚ)
    (h12 : t1 ≤ t2) (h23 : t2 ≤ t3) (h34 : t3 ≤ t4) (h45 : t4 ≤ t5)
    (hspan : t5 ≤ t1 + 10) (h56 : t5 ≤ t6) (hwin : t6 < t1 + 60)
    (h67 : t6 ≤ t7) (hpast : t1 + 60 < t7) :
    checkRateLimit 5 50 ⟨[], []⟩ t1 = (Except.ok true, ⟨[t1], [t1]⟩) ∧
    checkRateLimit 5 50 ⟨[t1], [t1]⟩ t2 = (Except.ok true, ⟨[t1, t2], [t1, t2]⟩) ∧
    checkRateLimit 5 50 ⟨[t1, t2], [t1, t2]⟩ t3 =
      (Except.ok true, ⟨[t1, t2, t3], [t1, t2, t3]⟩) ∧
    checkRateLimit 5 50 ⟨[t1, t2, t3], [t1, t2, t3]⟩ t4 =
      (Except.ok true, ⟨[t1, t2, t3, t4], [t1, t2, t3, t4]⟩) ∧
    checkRateLimit 5 50 ⟨[t1, t2, t3, t4], [t1, t2, t3, t4]⟩ t5 =
      (Except.ok true, ⟨[t1, t2, t3, t4, t5], [t1, t2, t3, t4, t5]⟩) ∧
    checkRateLimit 5 50 ⟨[t1, t2, t3, t4, t5], [t1, t2, t3, t4, t5]⟩ t6 =
      (Except.error (rateLimitMinuteMsg 5), ⟨[t1, t2, t3, t4, t5], [t1, t2, t3, t4, t5]⟩) ∧
    (checkRateLimit 5 50 ⟨[t1, t2, t3, t4, t5], [t1, t2, t3, t4, t5]⟩ t7).1 =
      Except.ok true := by
  refine ⟨?_, ?_, ?_, ?_, ?_, ?_, ?_⟩
  · simp [checkRateLimit, purge]
  · have hm := purge_keep (t := t1) (c := t2 - 60) [] (by linarith)
    have hh := purge_keep (t := t1) (c := t2 - 3600) [] (by linarith)
    simp [checkRateLimit, hm, hh]
  · have hm := purge_keep (t := t1) (c := t3 - 60) [t2] (by linarith)
    have hh := purge_keep (t := t1) (c := t3 - 3600) [t2] (by linarith)
    simp [checkRateLimit, hm, hh]
  · have hm := purge_keep (t := t1) (c := t4 - 60) [t2, t3] (by linarith)
    have hh := purge_keep (t := t1) (c := t4 - 3600) [t2, t3] (by linarith)
    simp [checkRateLimit, hm, hh]
  · have hm := purge_keep (t := t1) (c := t5 - 60) [t2, t3, t4] (by linarith)
    have hh := purge_keep (t := t1) (c := t5 - 3600) [t2, t3, t4] (by linarith)
    simp [checkRateLimit, hm, hh]
  · have hm := purge_keep (t := t1) (c := t6 - 60) [t2, t3, t4, t5] (by linarith)
    simp [checkRateLimit, hm]
  · have hm := purge_drop_head (t := t1) (c := t7 - 60) [t2, t3, t4, t5] (by linarith)
    have h5 : ¬ (5 ≤ (purge [t1, t2, t3, t4, t5] (t7 - 60)).length) := by
      rw [hm]
      have := purge_length_le [t2, t3, t4, t5] (t7 - 60)
      simp at this ⊢
      omega
    have h50 : ¬ (50 ≤ (purge [t1, t2, t3, t4, t5] (t7 - 3600)).length) := by
      have := purge_length_le [t1, t2, t3, t4, t5] (t7 - 3600)
      simp at this ⊢
      omega
    simp [checkRateLimit, h5, h50]

/-- C4 witness: the scenario instantiated at concrete times 0,2,4,6,8 (five
admissions within 10 s), a denied sixth check at 30 s, and a successful
seventh check at 100 s. -/
theorem c4_minute_window_scenario_witness :
    checkRateLimit 5 50 ⟨[], []⟩ 0 = (Except.ok true, ⟨[0], [0]⟩) ∧
    checkRateLimit 5 50 ⟨[0], [0]⟩ 2 = (Except.ok true, ⟨[0, 2], [0, 2]⟩) ∧
    checkRateLimit 5 50 ⟨[0, 2], [0, 2]⟩ 4 = (Except.ok true, ⟨[0, 2, 4], [0, 2, 4]⟩) ∧
    checkRateLimit 5 50 ⟨[0, 2, 4], [0, 2, 4]⟩ 6 =
      (Except.ok true, ⟨[0, 2, 4, 6], [0, 2, 4, 6]⟩) ∧
    checkRateLimit 5 50 ⟨[0, 2, 4, 6], [0, 2, 4, 6]⟩ 8 =
      (Except.ok true, ⟨[0, 2, 4, 6, 8], [0, 2, 4, 6, 8]⟩) ∧
    checkRateLimit 5 50 ⟨[0, 2, 4, 6, 8], [0, 2, 4, 6, 8]⟩ 30 =
      (Except.error (rateLimitMinuteMsg 5), ⟨[0, 2, 4, 6, 8], [0, 2, 4, 6, 8]⟩) ∧
    (checkRateLimit 5 50 ⟨[0, 2, 4, 6, 8], [0, 2, 4, 6, 8]⟩ 100).1 = Except.ok true :=
  c4_minute_window_scenario 0 2 4 6 8 30 100 (by norm_num) (by norm_num) (by norm_num)
    (by norm_num) (by norm_num) (by norm_num) (by norm_num) (by norm_num) (by norm_num)

/-! ### Conversation window

Embedding of `FirestoreChatMessageHistory.add_message` (src/src/memory.py,
lines 63-75): append the new message, then, when the list exceeds
`max_messages`, keep `self._messages[-self.max_messages:]`.  Python's
negative-index slice is a no-op when `max_messages = 0` (`[-0:]` is the
whole list), so the source never truncates with a zero window; for a
positive window the slice keeps the most recent `max_messages` entries.
The `messages` property (lines 56-61) returns the stored list. -/

def addMessage {α : Type} (maxMessages : ℕ) (hist : List α) (m : α) : List α :=
  let h := hist ++ [m]
  if maxMessages < h.length then
    if maxMessages = 0 then h else h.drop (h.length - maxMessages)
  else h

def addAll {α : Type} (maxMessages : ℕ) (hist : List α) (msgs : List α) : List α :=
  msgs.foldl (addMessage maxMessages) hist

theorem addMessage_drop {α : Type} (k : ℕ) (hk : 0 < k) (l : List α) (m : α) :
    addMessage k (l.drop (l.length - k)) m = (l ++ [m]).drop ((l ++ [m]).length - k) := by
  rcases Nat.lt_or_ge l.length k with hlt | hge
  · have h0 : l.length - k = 0 := by omega
    have h1 : (l ++ [m]).length - k = 0 := by simp <;> omega
    rw [h0, h1, List.drop_zero, List.drop_zero]
    simp only [addMessage]
    rw [if_neg (by simp <;> omega)]
  · have hlen : (l.drop (l.length - k)).length = k := by simp <;> omega
    simp only [addMessage]
    rw [if_pos (by simp [hlen] <;> omega), if_neg (by omega)]
    have e1 : (l.drop (l.length - k) ++ [m]).length - k = 1 := by
      simp [hlen] <;> omega
    have e2 : (l ++ [m]).length - k = l.length + 1 - k := by simp
    rw [e1, e2]
    rw [List.drop_append_of_le_length (show 1 ≤ (l.drop (l.length - k)).length by
      rw [hlen]; omega)]
    rw [List.drop_drop]
    rw [List.drop_append_of_le_length (show l.length + 1 - k ≤ l.length by omega)]
    congr 2
    omega

theorem addAll_window {α : Type} (maxMessages : ℕ) (hk : 0 < maxMessages)
    (msgs : List α) (l : List α) :
    addAll maxMessages (l.drop (l.length - maxMessages)) msgs =
      (l ++ msgs).drop ((l ++ msgs).length - maxMessages) := by
  induction msgs generalizing l with
  | nil => simp [addAll]
  | cons m rest ih =>
    have step := addMessage_drop maxMessages hk l m
    have ihm := ih (l ++ [m])
    simp only [addAll, List.foldl_cons] at *
    rw [step, ihm]
    simp

/-- C5 counterexample: with `max_window = 0` — a configuration the source
accepts, since `MAX_CONVERSATION_LENGTH` is never validated — Python's
`self._messages[-0:]` slice keeps the whole list, so three sequentially
appended messages are all retained instead of the "most recent 0 messages"
the claim requires for `n > max_window`. -/
theorem c5_window_zero_counterexample :
    addAll 0 ([] : List ℕ) [10, 20, 30] = [10, 20, 30] ∧
    addAll 0 ([] : List ℕ) [10, 20, 30] ≠ [] := by decide

/-- C5 amended: for a positive `max_window`, starting from an empty history,
sequentially appending `msgs` through the windowed `add_message` yields
exactly `msgs` (in order) when `msgs.length ≤ max_window`, and exactly the
most recent `max_window` messages, oldest first, when
`msgs.length > max_window`; with `max_window = 0` the source's `[-0:]` slice
never truncates, so the full sequence is kept. -/
theorem c5_window_exact {α : Type} (maxMessages : ℕ) (hpos : 0 < maxMessages)
    (msgs : List α) :
    (msgs.length ≤ maxMessages → addAll maxMessages [] msgs = msgs) ∧
    (maxMessages < msgs.length →
      addAll maxMessages [] msgs = msgs.drop (msgs.length - maxMessages)) := by
  have base := addAll_window maxMessages hpos msgs []
  simp at base
  constructor
  · intro h
    rw [base, Nat.sub_eq_zero_of_le h, List.drop_zero]
  · intro _
    exact base

/-- C5 witness: with `max_window = 2`, appending two messages reproduces them
exactly, and appending three keeps only the last two, oldest first. -/
theorem c5_window_exact_witness :
    addAll 2 ([] : List ℕ) [10, 20] = [10, 20] ∧
    addAll 2 ([] : List ℕ) [10, 20, 30] = [20, 30] :=
  ⟨(c5_window_exact 2 (by decide) [10, 20]).1 (by decide),
   by simpa using (c5_window_exact 2 (by decide) [10, 20, 30]).2 (by decide)⟩

/-! ### Conversation expiry

Embedding of `FirestoreChatMessageHistory._load_messages` (src/src/memory.py,
lines 94-152) and `_is_conversation_expired` (lines 207-222).  A stored
Firestore document is `StoredDoc`; `lastUpdated = none` models a document
missing the `last_updated` field (treated as expired).  On expiry,
`_load_messages` calls `clear()`, which deletes the document and returns an
empty message list; the source hardcodes `expiration_hours = 24`. -/

structure StoredDoc (α : Type) where
  messages : List α
  lastUpdated : Option ℚ
deriving DecidableEq

def isConversationExpired {α : Type} (d : StoredDoc α) (now : ℚ) : Bool :=
  match d.lastUpdated with
  | none => true
  | some t => decide (now - t > 24 * 3600)

def loadMessages {α : Type} (store : Option (StoredDoc α)) (now : ℚ) :
    List α × Option (StoredDoc α) :=
  match store with
  | none => ([], none)
  | some d => if isConversationExpired d now then ([], none) else (d.messages, some d)

/-- C8 counterexample: the claim speaks of "the configured TTL", but the code
hardcodes 24 hours and never consults `conversation_timeout_hours`.  With a
configured TTL of 1 hour, a session whose `last_updated` is 7200 s (2 h) old
is older than the configured TTL, yet `load` returns its full prior history
and does not delete the record. -/
theorem c8_configured_ttl_counterexample :
    (7200 : ℚ) - 0 > 1 * 3600 ∧
    loadMessages (some (⟨[0], some 0⟩ : StoredDoc ℕ)) 7200 =
      ([0], some ⟨[0], some 0⟩) := by
  constructor
  · norm_num
  · norm_num [loadMessages, isConversationExpired]

/-- C8 amended: with the TTL fixed at 24 hours (as the code hardcodes it,
regardless of configuration), a session whose `last_updated` is more than
24 h old loads as empty and the stored record is deleted as a side effect,
after which every subsequent load for that identity returns the empty list. -/
theorem c8_expiry_deletes {α : Type} (msgs : List α) (t now : ℚ)
    (h : now - t > 24 * 3600) :
    loadMessages (some (⟨msgs, some t⟩ : StoredDoc α)) now = ([], none) ∧
    (∀ now2 : ℚ, loadMessages (none : Option (StoredDoc α)) now2 = ([], none)) := by
  refine ⟨?_, fun now2 => rfl⟩
  simp [loadMessages, isConversationExpired, h]

/-- C8 witness: a session last updated at time 0 loaded 90000 s (25 h) later
comes back empty with the record deleted. -/
theorem c8_expiry_deletes_witness :
    loadMessages (some (⟨[7], some 0⟩ : StoredDoc ℕ)) 90000 = ([], none) ∧
    (∀ now2 : ℚ, loadMessages (none : Option (StoredDoc ℕ)) now2 = ([], none)) :=
  c8_expiry_deletes [7] 0 90000 (by norm_num)

/-! ### Phone-number sanitization

Embedding of `InputSanitizer.sanitize_phone_number` (src/src/security.py,
lines 203-221): keep only digits and the characters `+ - ( )` and space,
then strip surrounding whitespace; the empty string is returned unchanged. -/

def phoneChar (c : Char) : Bool :=
  c.isDigit || c = '+' || c = '-' || c = '(' || c = ')' || c = ' '

def sanitizePhoneNumber (l : List Char) : List Char :=
  if l = [] then [] else pyStrip (l.filter phoneChar)

theorem dropWhile_dropWhile {α : Type} (p : α → Bool) (l : List α) :
    (l.dropWhile p).dropWhile p = l.dropWhile p := by
  induction l with
  | nil => rfl
  | cons a t ih =>
    by_cases h : p a
    · simp [List.dropWhile_cons, h, ih]
    · simp [List.dropWhile_cons, h]

theorem pyStrip_sublist (l : List Char) : (pyStrip l).Sublist l := by
  unfold pyStrip
  have h1 : ((l.dropWhile pyIsWs).reverse.dropWhile pyIsWs).reverse.Sublist
      (l.dropWhile pyIsWs) := by
    have := (List.dropWhile_sublist (l := (l.dropWhile pyIsWs).reverse) pyIsWs).reverse
    simpa using this
  exact h1.trans (List.dropWhile_sublist pyIsWs)

theorem dropWhile_eq_self_of_append {α : Type} (p : α → Bool) (z t : List α)
    (h : (z ++ t).dropWhile p = z ++ t) : z.dropWhile p = z := by
  cases z with
  | nil => rfl
  | cons a z2 =>
    have hpa : ¬ p a = true := by
      intro hpa
      have h2 : ((a :: z2) ++ t).dropWhile p = (z2 ++ t).dropWhile p := by
        simp [List.dropWhile_cons, hpa]
      rw [h2] at h
      have hlen := (List.dropWhile_sublist (l := z2 ++ t) p).length_le
      rw [h] at hlen
      simp at hlen
    simp [List.dropWhile_cons, hpa]

theorem pyStrip_idem (l : List Char) : pyStrip (pyStrip l) = pyStrip l := by
  set y := l.dropWhile pyIsWs with hy
  have hfy : y.dropWhile pyIsWs = y := by rw [hy]; exact dropWhile_dropWhile pyIsWs l
  set z := (y.reverse.dropWhile pyIsWs).reverse with hz
  have hzrev : z.reverse = y.reverse.dropWhile pyIsWs := by rw [hz]; simp
  have hsplit : y = z ++ (y.reverse.takeWhile pyIsWs).reverse := by
    have h0 : y.reverse.takeWhile pyIsWs ++ y.reverse.dropWhile pyIsWs = y.reverse :=
      List.takeWhile_append_dropWhile pyIsWs y.reverse
    have h1 := congrArg List.reverse h0
    rw [List.reverse_append, List.reverse_reverse] at h1
    rw [hz]
    exact h1.symm
  have hfz : z.dropWhile pyIsWs = z := by
    apply dropWhile_eq_self_of_append pyIsWs z (y.reverse.takeWhile pyIsWs).reverse
    rw [← hsplit]
    exact hfy
  show ((z.dropWhile pyIsWs).reverse.dropWhile pyIsWs).reverse = z
  rw [hfz, hzrev, dropWhile_dropWhile, ← hzrev]
  simp

/-- C9: identity normalization is idempotent — applying
`sanitize_phone_number` twice gives the same result as applying it once, so
repeated requests from the same sender always map to the same history and
rate-limit key.  (Determinism is immediate: the embedding is a pure
function.) -/
theorem c9_sanitize_phone_idempotent (l : List Char) :
    sanitizePhoneNumber (sanitizePhoneNumber l) = sanitizePhoneNumber l := by
  by_cases hz : sanitizePhoneNumber l = []
  · rw [hz]
    simp [sanitizePhoneNumber]
  · conv_lhs => rw [sanitizePhoneNumber]
    rw [if_neg hz]
    have hmem : ∀ a ∈ sanitizePhoneNumber l, phoneChar a = true := by
      intro a ha
      by_cases hl : l = []
      · rw [hl] at ha
        simp [sanitizePhoneNumber] at ha
      · rw [sanitizePhoneNumber, if_neg hl] at ha
        exact List.of_mem_filter ((pyStrip_sublist _).mem ha)
    rw [List.filter_eq_self.mpr hmem]
    by_cases hl : l = []
    · rw [hl]
      simp [sanitizePhoneNumber, pyStrip]
    · rw [sanitizePhoneNumber, if_neg hl]
      exact pyStrip_idem _

/-! ### Reply segmentation

Embedding of `SMSHandler._create_multi_message_response`
(src/src/sms_handler.py, lines 219-278) and of the dispatch in
`_create_twiml_response` (lines 189-217).  `splitDot` is Python's
`str.split('. ')` (leftmost, non-overlapping occurrences of the two-character
separator); `packLoop` is the greedy sentence-packing loop, `charSplitLoop`
the character-level fallback split, and `multiMessageChunks` the final list
of emitted message bodies (numbered part indicators plus the continuation
notice).  `max_chunk_size` is `max_sms_length - 10`.  The `maxC = 0` guard in
`charSplitLoop` only makes the embedding total; the source never reaches it
with the configurations considered here. -/

def sepDS : List Char := ['.', ' ']

def splitDot : List Char → List (List Char)
  | [] => [[]]
  | '.' :: ' ' :: rest => [] :: splitDot rest
  | c :: rest =>
    match splitDot rest with
    | [] => [[c]]
    | s :: ss => (c :: s) :: ss

def joinSep : List (List Char) → List Char
  | [] => []
  | [s] => s
  | s :: ss => s ++ sepDS ++ joinSep ss

def packLoop (maxC : ℕ) : List (List Char) → List (List Char) → List Char → List (List Char)
  | [], chunks, current => if current = [] then chunks else chunks ++ [pyStrip current]
  | s :: rest, chunks, current =>
    if (current ++ s ++ sepDS).length ≤ maxC then
      packLoop maxC rest chunks (current ++ s ++ sepDS)
    else if current = [] then packLoop maxC rest chunks (s ++ sepDS)
    else packLoop maxC rest (chunks ++ [pyStrip current]) (s ++ sepDS)

def charSplitGo (maxC : ℕ) : ℕ → List Char → List (List Char)
  | 0, l => if l = [] then [] else [l]
  | fuel + 1, l =>
    if maxC < l.length then l.take maxC :: charSplitGo maxC fuel (l.drop maxC)
    else if l = [] then [] else [l]

def charSplitLoop (maxC : ℕ) (l : List Char) : List (List Char) :=
  if maxC = 0 then [l] else charSplitGo maxC l.length l

def charSplit (maxC : ℕ) (chunk : List Char) : List (List Char) :=
  if chunk.length ≤ maxC then [chunk] else charSplitLoop maxC chunk

def finalChunks (maxLen : ℕ) (text : List Char) : List (List Char) :=
  (packLoop (maxLen - 10) (splitDot text) [] []).flatMap (charSplit (maxLen - 10))

def partTag (i total : ℕ) : List Char :=
  ['('] ++ natChars i ++ ['/'] ++ natChars total ++ [')', ' ']

def contNotice : List Char :=
  "(Message continued... type \x27more\x27 for the rest)".data

def multiMessageChunks (maxLen : ℕ) (text : List Char) : List (List Char) :=
  let fc := finalChunks maxLen text
  ((fc.take 3).enum.map fun p =>
    if 1 < fc.length then partTag (p.1 + 1) (min fc.length 3) ++ p.2 else p.2) ++
  (if 3 < fc.length then [contNotice] else [])

def createTwimlMessages (maxLen : ℕ) (text : List Char) : List (List Char) :=
  if maxLen < text.length then multiMessageChunks maxLen text else [text]

/-! Non-whitespace content: `dropWs` removes every character that Python's
whitespace normalization or `strip()` could touch, so equalities up to
`dropWs` mean "equal except for normalized whitespace". -/

def dropWs (l : List Char) : List Char := l.filter fun c => !pyIsWs c

theorem splitDot_ne_nil (l : List Char) : splitDot l ≠ [] := by
  unfold splitDot
  split
  · simp
  · simp
  · split <;> simp

theorem joinSep_cons_cons (s : List Char) (t : List Char) (ss : List (List Char)) :
    joinSep ((s ++ t) :: ss) = s ++ joinSep (t :: ss) := by
  cases ss with
  | nil => simp [joinSep]
  | cons s2 ss2 => simp [joinSep]

theorem joinSep_splitDot (l : List Char) : joinSep (splitDot l) = l := by
  induction l using splitDot.induct with
  | case1 => rfl
  | case2 rest ih =>
    obtain ⟨s, ss, hss⟩ := List.exists_cons_of_ne_nil (splitDot_ne_nil rest)
    rw [splitDot.eq_2, hss]
    rw [hss] at ih
    have : joinSep ([] :: s :: ss) = sepDS ++ joinSep (s :: ss) := by simp [joinSep]
    rw [this, ih]
    rfl
  | case3 c rest hne hnil ih => exact absurd hnil (splitDot_ne_nil rest)
  | case4 c rest hne s ss hss ih =>
    rw [splitDot.eq_3 c rest hne, hss]
    rw [hss] at ih
    have : joinSep ((c :: s) :: ss) = [c] ++ joinSep (s :: ss) := by
      simpa using joinSep_cons_cons [c] s ss
    rw [this, ih]
    rfl

theorem dropWs_nil : dropWs [] = [] := rfl

theorem charSplitGo_flatten (maxC : ℕ) (hm : maxC ≠ 0) (fuel : ℕ) (l : List Char)
    (hl : l.length ≤ fuel) : (charSplitGo maxC fuel l).flatten = l := by
  induction fuel generalizing l with
  | zero =>
    have : l = [] := List.length_eq_zero.mp (Nat.le_zero.mp hl)
    subst this
    rfl
  | succ fuel ih =>
    by_cases h : maxC < l.length
    · rw [charSplitGo, if_pos h]
      have hrec : (l.drop maxC).length ≤ fuel := by
        simp only [List.length_drop]
        omega
      simp [ih (l.drop maxC) hrec]
    · rw [charSplitGo, if_neg h]
      by_cases h2 : l = []
      · rw [if_pos h2, h2]
        rfl
      · rw [if_neg h2]
        simp

theorem charSplitLoop_flatten (maxC : ℕ) (l : List Char) :
    (charSplitLoop maxC l).flatten = l := by
  unfold charSplitLoop
  by_cases h : maxC = 0
  · rw [if_pos h]
    simp
  · rw [if_neg h]
    exact charSplitGo_flatten maxC h l.length l le_rfl

theorem charSplit_flatten (maxC : ℕ) (chunk : List Char) :
    (charSplit maxC chunk).flatten = chunk := by
  unfold charSplit
  split
  · simp
  · exact charSplitLoop_flatten maxC chunk

theorem flatMap_charSplit_flatten (maxC : ℕ) (chunks : List (List Char)) :
    (chunks.flatMap (charSplit maxC)).flatten = chunks.flatten := by
  induction chunks with
  | nil => rfl
  | cons c rest ih =>
    simp only [List.flatMap_cons, List.flatten_append, List.flatten_cons, ih,
      charSplit_flatten]

theorem dropWs_append (a b : List Char) : dropWs (a ++ b) = dropWs a ++ dropWs b := by
  simp [dropWs, List.filter_append]

theorem dropWs_dropWhile (l : List Char) : dropWs (l.dropWhile pyIsWs) = dropWs l := by
  induction l with
  | nil => rfl
  | cons a t ih =>
    by_cases h : pyIsWs a
    · rw [List.dropWhile_cons, if_pos h, ih]
      simp [dropWs, h]
    · rw [List.dropWhile_cons, if_neg h]

theorem dropWs_reverse (l : List Char) : dropWs l.reverse = (dropWs l).reverse := by
  simp [dropWs, List.filter_reverse]

theorem dropWs_pyStrip (l : List Char) : dropWs (pyStrip l) = dropWs l := by
  unfold pyStrip
  rw [dropWs_reverse, dropWs_dropWhile, dropWs_reverse, List.reverse_reverse,
    dropWs_dropWhile]

theorem packLoop_dropWs (maxC : ℕ) (ss chunks : List (List Char)) (current : List Char) :
    dropWs (packLoop maxC ss chunks current).flatten =
      dropWs chunks.flatten ++ dropWs current ++
        dropWs (ss.map (· ++ sepDS)).flatten := by
  induction ss generalizing chunks current with
  | nil =>
    by_cases h : current = []
    · simp [packLoop, h, dropWs_nil]
    · rw [packLoop, if_neg h]
      simp [dropWs_append, dropWs_pyStrip, dropWs_nil]
  | cons s rest ih =>
    rw [packLoop]
    by_cases h1 : (current ++ s ++ sepDS).length ≤ maxC
    · rw [if_pos h1, ih]
      simp [dropWs_append, dropWs_nil, List.append_assoc]
    · rw [if_neg h1]
      by_cases h2 : current = []
      · rw [if_pos h2, ih, h2]
        simp [dropWs_append, dropWs_nil, List.append_assoc]
      · rw [if_neg h2, ih]
        simp [dropWs_append, dropWs_pyStrip, dropWs_nil, List.append_assoc]

theorem mapSep_flatten (s : List Char) (ss : List (List Char)) :
    ((s :: ss).map (· ++ sepDS)).flatten = joinSep (s :: ss) ++ sepDS := by
  induction ss generalizing s with
  | nil => simp [joinSep]
  | cons s2 ss2 ih =>
    have hj : joinSep (s :: s2 :: ss2) = s ++ sepDS ++ joinSep (s2 :: ss2) := by
      simp [joinSep]
    rw [List.map_cons, List.flatten_cons, ih s2, hj]
    simp [List.append_assoc]

theorem finalChunks_cover (maxLen : ℕ) (text : List Char) :
    dropWs (finalChunks maxLen text).flatten = dropWs text ++ ['.'] := by
  unfold finalChunks
  rw [flatMap_charSplit_flatten, packLoop_dropWs]
  obtain ⟨s, ss, hss⟩ := List.exists_cons_of_ne_nil (splitDot_ne_nil text)
  rw [hss, mapSep_flatten, ← hss]
  rw [dropWs_append, joinSep_splitDot]
  rfl

set_option maxRecDepth 100000

/-- C2 counterexample: for the 400-character single-sentence input (400
copies of `a`) with `maxSegmentLength = 100`, the emitted response is three
numbered segments of 90 content characters each plus the continuation
notice; the concatenated content of the emitted segments (prefixes stripped)
has only 270 non-whitespace characters against 400 in the original, so it
cannot cover the whole original text — the claim's coverage conjunct fails
because chunks beyond the hard cap of 3 are discarded. -/
theorem c2_emitted_coverage_counterexample :
    100 < (List.replicate 400 'a').length ∧
    multiMessageChunks 100 (List.replicate 400 'a') =
      [partTag 1 3 ++ List.replicate 90 'a',
       partTag 2 3 ++ List.replicate 90 'a',
       partTag 3 3 ++ List.replicate 90 'a',
       contNotice] ∧
    (dropWs (List.replicate 90 'a' ++ List.replicate 90 'a' ++
        List.replicate 90 'a')).length <
      (dropWs (List.replicate 400 'a')).length := by
  refine ⟨by decide, by decide, by decide⟩

/-- C2 amended: for every input, the concatenation of all chunks the
segmenter produces (before the hard 3-segment cap) covers the whole
original text with no character loss except normalized whitespace and one
appended period; for the 400-character single-sentence input with
`maxSegmentLength = 100`, the emitted response consists of multiple numbered
segments each at most 100 characters long (lengths 96, 96, 96 and a
47-character continuation notice), with the same total 3 in every prefix —
but the emitted segments carry only the first 270 characters of content. -/
theorem c2_segmentation_amended :
    (∀ (maxLen : ℕ) (text : List Char),
        dropWs (finalChunks maxLen text).flatten = dropWs text ++ ['.']) ∧
    createTwimlMessages 100 (List.replicate 400 'a') =
      [partTag 1 3 ++ List.replicate 90 'a',
       partTag 2 3 ++ List.replicate 90 'a',
       partTag 3 3 ++ List.replicate 90 'a',
       contNotice] ∧
    (createTwimlMessages 100 (List.replicate 400 'a')).map List.length =
      [96, 96, 96, 47] :=
  ⟨finalChunks_cover, by decide, by decide⟩

/-- C6: whenever the segmenter produces more than `hardSegmentCap = 3`
chunks, the emitted response is exactly the first 3 chunks, numbered with
prefixes `(i/total)` where `total = min(produced, 3) = 3`, followed by
exactly one continuation-notice segment — 4 segments in total. -/
theorem c6_hard_cap (maxLen : ℕ) (text : List Char)
    (h : 3 < (finalChunks maxLen text).length) :
    multiMessageChunks maxLen text =
      ((finalChunks maxLen text).take 3).enum.map
        (fun p => partTag (p.1 + 1) 3 ++ p.2) ++ [contNotice] ∧
    (multiMessageChunks maxLen text).length = 4 := by
  have h1 : 1 < (finalChunks maxLen text).length := by omega
  have hmin : min (finalChunks maxLen text).length 3 = 3 := by omega
  constructor
  · simp only [multiMessageChunks, hmin, if_pos h, if_pos h1]
  · simp only [multiMessageChunks, hmin, if_pos h, if_pos h1]
    simp [List.length_take]
    omega

/-- C6 witness: 400 copies of `b` with `maxSegmentLength = 100` produce 5
chunks, so the emitted response has exactly 4 segments. -/
theorem c6_hard_cap_witness :
    (multiMessageChunks 100 (List.replicate 400 'b')).length = 4 :=
  (c6_hard_cap 100 (List.replicate 400 'b') (by decide)).2

/-! ### Special commands and message processing

Embedding of `SMSHandler.process_message`, `_is_special_command` and
`_handle_special_command` (src/src/sms_handler.py, lines 39-134) together
with the memory side effects of `SMSAgent.process_message`
(src/src/agent.py, lines 156-241): append the inbound message, invoke the
generator on the (already updated) history, append the generated reply.
The conversation store keyed by phone number is a total function `MemStore`
(Firestore documents, empty list when absent); the external LLM call —
including the SMS formatting of its output — is the abstract parameter
`gen`.  The help/status/info texts are built from configuration and agent
statistics, so they are fields of `CmdTexts`; their contents are irrelevant
to the claims. -/

inductive Role
  | human
  | ai
deriving DecidableEq

structure ChatMsg where
  role : Role
  content : List Char
deriving DecidableEq

def MemStore : Type := List Char → List ChatMsg

def clearConversation (store : MemStore) (phone : List Char) : MemStore :=
  fun p => if p = phone then [] else store p

def addStoreMsg (maxMessages : ℕ) (store : MemStore) (phone : List Char)
    (m : ChatMsg) : MemStore :=
  fun p => if p = phone then addMessage maxMessages (store p) m else store p

def helpCmds : List (List Char) := ["help".data, "/help".data, "?".data]

def resetCmds : List (List Char) := ["reset".data, "/reset".data, "clear".data]

def statusCmds : List (List Char) := ["status".data, "/status".data]

def infoCmds : List (List Char) := ["info".data, "/info".data]

def specialCommands : List (List Char) := helpCmds ++ resetCmds ++ statusCmds ++ infoCmds

def isSpecialCommand (message : List Char) : Bool :=
  decide (pyStrip (pyLower message) ∈ specialCommands)

structure CmdTexts where
  helpMsg : List Char
  statusMsg : List Char
  infoMsg : List Char

def resetConfirmation : List Char :=
  "Your conversation history has been cleared. Starting fresh!".data

def unknownCommandReply : List Char :=
  "Unknown command. Type \x27help\x27 for available commands.".data

def emptyBodyReply : List Char :=
  "I received your message but it appears to be empty. Please send me a text message and I\x27ll be happy to help!".data

def handleSpecialCommand (texts : CmdTexts) (message phone : List Char)
    (store : MemStore) : List Char × MemStore :=
  if pyStrip (pyLower message) ∈ helpCmds then (texts.helpMsg, store)
  else if pyStrip (pyLower message) ∈ resetCmds then
    (resetConfirmation, clearConversation store phone)
  else if pyStrip (pyLower message) ∈ statusCmds then (texts.statusMsg, store)
  else if pyStrip (pyLower message) ∈ infoCmds then (texts.infoMsg, store)
  else (unknownCommandReply, store)

def agentProcess (maxMessages : ℕ) (gen : List ChatMsg → List Char → List Char)
    (store : MemStore) (phone body : List Char) : List Char × MemStore :=
  let store1 := addStoreMsg maxMessages store phone ⟨Role.human, body⟩
  let reply := gen (store1 phone) body
  (reply, addStoreMsg maxMessages store1 phone ⟨Role.ai, reply⟩)

structure ProcResult where
  reply : List Char
  store : MemStore
  generatorCalled : Bool

def processMessage (maxMessages : ℕ) (texts : CmdTexts)
    (gen : List ChatMsg → List Char → List Char) (store : MemStore)
    (phone body : List Char) : ProcResult :=
  if pyStrip body = [] then ⟨emptyBodyReply, store, false⟩
  else if isSpecialCommand (pyStrip body) then
    ⟨(handleSpecialCommand texts (pyStrip body) phone store).1,
     (handleSpecialCommand texts (pyStrip body) phone store).2, false⟩
  else
    ⟨(agentProcess maxMessages gen store phone (pyStrip body)).1,
     (agentProcess maxMessages gen store phone (pyStrip body)).2, true⟩

/-- C3: for every store, identity and message body whose trimmed,
lowercased form is exactly `reset`, processing the message clears the
conversation store for that identity (so the next load returns the empty
list), emits the confirmation reply, and never invokes the external
generator. -/
theorem c3_reset_clears_history (maxMessages : ℕ) (texts : CmdTexts)
    (gen : List ChatMsg → List Char → List Char) (store : MemStore)
    (phone body : List Char)
    (h : pyStrip (pyLower (pyStrip body)) = "reset".data) :
    (processMessage maxMessages texts gen store phone body).store =
      clearConversation store phone ∧
    (processMessage maxMessages texts gen store phone body).store phone = [] ∧
    (processMessage maxMessages texts gen store phone body).reply =
      resetConfirmation ∧
    (processMessage maxMessages texts gen store phone body).generatorCalled = false := by
  have hne : ¬ (pyStrip body = []) := by
    intro he
    rw [he] at h
    exact absurd h (by decide)
  have hcmd : isSpecialCommand (pyStrip body) = true := by
    rw [isSpecialCommand, h]
    decide
  have hsc : handleSpecialCommand texts (pyStrip body) phone store =
      (resetConfirmation, clearConversation store phone) := by
    simp only [handleSpecialCommand, h]
    rw [if_neg (by decide), if_pos (by decide)]
  have hproc : processMessage maxMessages texts gen store phone body =
      ⟨resetConfirmation, clearConversation store phone, false⟩ := by
    simp only [processMessage]
    rw [if_neg hne, if_pos hcmd, hsc]
  refine ⟨by rw [hproc], ?_, by rw [hproc], by rw [hproc]⟩
  rw [hproc]
  simp [clearConversation]

/-- C3 witness: the body `" RESET "` from an identity with one stored
message clears that identity's history, yields the confirmation reply, and
does not call the generator. -/
theorem c3_reset_clears_history_witness :
    (processMessage 20 ⟨[], [], []⟩ (fun _ _ => [])
        (fun _ => [⟨Role.human, "hi".data⟩]) "+15551234567".data
        " RESET ".data).store "+15551234567".data = [] ∧
    (processMessage 20 ⟨[], [], []⟩ (fun _ _ => [])
        (fun _ => [⟨Role.human, "hi".data⟩]) "+15551234567".data
        " RESET ".data).reply = resetConfirmation ∧
    (processMessage 20 ⟨[], [], []⟩ (fun _ _ => [])
        (fun _ => [⟨Role.human, "hi".data⟩]) "+15551234567".data
        " RESET ".data).generatorCalled = false :=
  have t := c3_reset_clears_history 20 ⟨[], [], []⟩ (fun _ _ => [])
    (fun _ => [⟨Role.human, "hi".data⟩]) "+15551234567".data " RESET ".data
    (by decide)
  ⟨t.2.1, t.2.2.1, t.2.2.2⟩

/-! ### Webhook signature validation

Embedding of `TwilioValidator.validate_request` and `_compute_signature`
(src/src/security.py, lines 32-86).  The signature algorithm is faithful and
complete: UTF-8 encoding of strings, `urllib.parse.urlencode` with
`quote_plus` percent-encoding over the form parameters sorted as Python's
`sorted` sorts `(key, value)` tuples (lexicographically by code point, keys
first; `sortPairs` is a stable insertion sort, which agrees with Python's
stable sort), HMAC-SHA1 keyed by the auth token, and standard base64.
`hmac.compare_digest` is equality (its constant-time behaviour has no
observable effect in this embedding). -/

def w32 (n : ℕ) : ℕ := n % 4294967296

def rotl32 (b n : ℕ) : ℕ := w32 (n * 2 ^ b + n / 2 ^ (32 - b))

def bytesToWordsBE : List ℕ → List ℕ
  | b0 :: b1 :: b2 :: b3 :: rest =>
    (((b0 * 256 + b1) * 256 + b2) * 256 + b3) :: bytesToWordsBE rest
  | _ => []

def wordToBytesBE (w : ℕ) : List ℕ :=
  [w / 16777216 % 256, w / 65536 % 256, w / 256 % 256, w % 256]

def sha1Pad (msg : List ℕ) : List ℕ :=
  msg ++ [128] ++ List.replicate ((119 - msg.length % 64) % 64) 0 ++
    (List.range 8).map fun i => 8 * msg.length / 2 ^ (8 * (7 - i)) % 256

def sha1ExtendRev : ℕ → List ℕ → List ℕ
  | 0, rws => rws
  | n + 1, rws =>
    sha1ExtendRev n
      (rotl32 1 (rws.getD 2 0 ^^^ rws.getD 7 0 ^^^ rws.getD 13 0 ^^^ rws.getD 15 0) :: rws)

def sha1F (t b c d : ℕ) : ℕ :=
  if t < 20 then (b &&& c) ||| ((4294967295 - w32 b) &&& d)
  else if t < 40 then b ^^^ c ^^^ d
  else if t < 60 then (b &&& c) ||| (b &&& d) ||| (c &&& d)
  else b ^^^ c ^^^ d

def sha1K (t : ℕ) : ℕ :=
  if t < 20 then 1518500249
  else if t < 40 then 1859775393
  else if t < 60 then 2400959708
  else 3395469782

def sha1Rounds : ℕ → List ℕ → ℕ × ℕ × ℕ × ℕ × ℕ → ℕ × ℕ × ℕ × ℕ × ℕ
  | _, [], st => st
  | t, w :: ws, (a, b, c, d, e) =>
    sha1Rounds (t + 1) ws
      (w32 (rotl32 5 a + sha1F t b c d + e + sha1K t + w), a, rotl32 30 b, c, d)

def sha1Blocks : ℕ → List ℕ → ℕ × ℕ × ℕ × ℕ × ℕ → ℕ × ℕ × ℕ × ℕ × ℕ
  | 0, _, h => h
  | _ + 1, [], h => h
  | fuel + 1, ws, (h0, h1, h2, h3, h4) =>
    let sched := (sha1ExtendRev 64 (ws.take 16).reverse).reverse
    let r := sha1Rounds 0 sched (h0, h1, h2, h3, h4)
    sha1Blocks fuel (ws.drop 16)
      (w32 (h0 + r.1), w32 (h1 + r.2.1), w32 (h2 + r.2.2.1), w32 (h3 + r.2.2.2.1),
       w32 (h4 + r.2.2.2.2))

def sha1 (msg : List ℕ) : List ℕ :=
  let ws := bytesToWordsBE (sha1Pad msg)
  let r := sha1Blocks ws.length ws (1732584193, 4023233417, 2562383102, 271733878, 3285377520)
  wordToBytesBE r.1 ++ wordToBytesBE r.2.1 ++ wordToBytesBE r.2.2.1 ++
    wordToBytesBE r.2.2.2.1 ++ wordToBytesBE r.2.2.2.2

def hmacSha1 (key msg : List ℕ) : List ℕ :=
  let k1 := if 64 < key.length then sha1 key else key
  let k2 := k1 ++ List.replicate (64 - k1.length) 0
  sha1 ((k2.map fun b => b ^^^ 92) ++ sha1 ((k2.map fun b => b ^^^ 54) ++ msg))

def utf8Bytes (c : Char) : List ℕ :=
  let n := c.toNat
  if n < 128 then [n]
  else if n < 2048 then [192 + n / 64, 128 + n % 64]
  else if n < 65536 then [224 + n / 4096, 128 + n / 64 % 64, 128 + n % 64]
  else [240 + n / 262144, 128 + n / 4096 % 64, 128 + n / 64 % 64, 128 + n % 64]

def strBytes (l : List Char) : List ℕ := l.flatMap utf8Bytes

def b64Char (n : ℕ) : Char :=
  "ABCDEFGHIJKLMNOPQRSTUVWXYZabcdefghijklmnopqrstuvwxyz0123456789+/".data.getD n 'A'

def base64Encode : List ℕ → List Char
  | [] => []
  | [b0] => [b64Char (b0 / 4), b64Char (b0 % 4 * 16), '=', '=']
  | [b0, b1] => [b64Char (b0 / 4), b64Char (b0 % 4 * 16 + b1 / 16), b64Char (b1 % 16 * 4), '=']
  | b0 :: b1 :: b2 :: rest =>
    b64Char (b0 / 4) :: b64Char (b0 % 4 * 16 + b1 / 16) ::
      b64Char (b1 % 16 * 4 + b2 / 64) :: b64Char (b2 % 64) :: base64Encode rest

def hexDigitUpper (n : ℕ) : Char :=
  if n < 10 then Char.ofNat (48 + n) else Char.ofNat (55 + n)

def quotePlus (l : List Char) : List Char :=
  (strBytes l).flatMap fun b =>
    if b = 32 then ['+']
    else if (48 ≤ b ∧ b ≤ 57) ∨ (65 ≤ b ∧ b ≤ 90) ∨ (97 ≤ b ∧ b ≤ 122) ∨
        b = 95 ∨ b = 46 ∨ b = 45 ∨ b = 126 then
      [Char.ofNat b]
    else ['%', hexDigitUpper (b / 16), hexDigitUpper (b % 16)]

def joinAmp : List (List Char) → List Char
  | [] => []
  | [x] => x
  | x :: xs => x ++ ['&'] ++ joinAmp xs

def urlencodePairs (ps : List (List Char × List Char)) : List Char :=
  joinAmp (ps.map fun p => quotePlus p.1 ++ ['='] ++ quotePlus p.2)

def listCharLt : List Char → List Char → Bool
  | [], [] => false
  | [], _ :: _ => true
  | _ :: _, [] => false
  | a :: xs, b :: ys =>
    if a.toNat < b.toNat then true
    else if b.toNat < a.toNat then false
    else listCharLt xs ys

def pairLe (p q : List Char × List Char) : Bool :=
  listCharLt p.1 q.1 || (p.1 = q.1 && !listCharLt q.2 p.2)

def insertSorted (x : List Char × List Char) :
    List (List Char × List Char) → List (List Char × List Char)
  | [] => [x]
  | y :: ys => if pairLe x y then x :: y :: ys else y :: insertSorted x ys

def sortPairs : List (List Char × List Char) → List (List Char × List Char)
  | [] => []
  | x :: xs => insertSorted x (sortPairs xs)

structure WebRequest where
  url : List Char
  method : List Char
  formParams : List (List Char × List Char)
  signatureHeader : Option (List Char)

def dataToSign (req : WebRequest) : List Char :=
  if req.method = "POST".data then
    if req.formParams = [] then req.url
    else req.url ++ urlencodePairs (sortPairs req.formParams)
  else req.url

def computeSignature (authToken data : List Char) : List Char :=
  base64Encode (hmacSha1 (strBytes authToken) (strBytes data))

def validateRequest (authToken : List Char) (req : WebRequest) : Bool :=
  if req.signatureHeader.getD [] = [] then false
  else decide (req.signatureHeader.getD [] = computeSignature authToken (dataToSign req))

/-- C7: signature verification succeeds exactly when a non-empty signature
header is present and equals the base64-encoded HMAC-SHA1, keyed by the
shared auth token, of the request URL concatenated with the sorted,
URL-encoded form parameters (just the URL when the parameter set is empty);
a missing header yields `false` (the embedding is a total function, so no
exception escapes).  The final conjunct pins the signature primitive to the
published reference vector for HMAC-SHA1 (key `key`, message `The quick
brown fox jumps over the lazy dog`). -/
theorem c7_validate_request (authToken : List Char) (req : WebRequest) :
    (validateRequest authToken req = true ↔
      req.signatureHeader.getD [] ≠ [] ∧
      req.signatureHeader.getD [] = computeSignature authToken (dataToSign req)) ∧
    (req.signatureHeader = none → validateRequest authToken req = false) ∧
    (req.method = "POST".data → req.formParams = [] → dataToSign req = req.url) ∧
    computeSignature "key".data "The quick brown fox jumps over the lazy dog".data =
      "3nybhbi3iqa8ino29wqQcBydtNk=".data := by
  refine ⟨?_, ?_, ?_, by decide⟩
  · by_cases hs : req.signatureHeader.getD [] = []
    · simp [validateRequest, hs]
    · simp [validateRequest, hs]
  · intro h
    simp [validateRequest, h]
  · intro hm hp
    simp [dataToSign, hm, hp]

/-- C7 witness: a POST request with no parameters and no signature header is
rejected, and its data-to-sign is just the URL. -/
theorem c7_validate_request_witness :
    validateRequest "tok".data ⟨"https://x.example/sms".data, "POST".data, [], none⟩ = false ∧
    dataToSign ⟨"https://x.example/sms".data, "POST".data, [], none⟩ =
      "https://x.example/sms".data :=
  ⟨(c7_validate_request "tok".data
      ⟨"https://x.example/sms".data, "POST".data, [], none⟩).2.1 rfl,
   (c7_validate_request "tok".data
      ⟨"https://x.example/sms".data, "POST".data, [], none⟩).2.2.1 rfl rfl⟩

/-! ### Webhook orchestration

Embedding of `handle_sms_webhook` and `_extract_sms_data` (src/main.py,
lines 63-169) as an event trace: the entry point validates the Twilio
signature via `TwilioValidator.validate_request` and, on success, hands the
extracted data to `SMSHandler.process_message`, whose non-command branch
appends the user message and the generated reply to the identity's history
(`SMSAgent.process_message`).  `securityManagerEvents` is the corresponding
trace of `SecurityManager.validate_and_sanitize_request`
(src/src/security.py, lines 237-282), the only place the rate limiter is
invoked — a function `main.py` never calls. -/

inductive Ev
  | sigVerified
  | rateChecked
  | histAppend
  | histCleared
deriving DecidableEq

def processEvents (fromNumber : Option (List Char)) (body : List Char) : List Ev :=
  match fromNumber with
  | none => []
  | some _ =>
    if pyStrip body = [] then []
    else if isSpecialCommand (pyStrip body) then
      if pyStrip (pyLower (pyStrip body)) ∈ resetCmds then [Ev.histCleared] else []
    else [Ev.histAppend, Ev.histAppend]

def handleSmsWebhook (authToken : List Char) (req : WebRequest) : ℕ × List Ev :=
  if validateRequest authToken req then
    (200,
      Ev.sigVerified ::
        processEvents (req.formParams.lookup "From".data)
          ((req.formParams.lookup "Body".data).getD []))
  else (403, [])

def securityManagerEvents (webhookValidationEnabled : Bool)
    (fromNumber : List Char) : List Ev :=
  (if webhookValidationEnabled then [Ev.sigVerified] else []) ++
    (if sanitizePhoneNumber fromNumber = [] then [] else [Ev.rateChecked])

theorem rateChecked_not_mem_processEvents (f : Option (List Char)) (b : List Char) :
    Ev.rateChecked ∉ processEvents f b := by
  unfold processEvents
  rcases f with _ | x
  · simp
  · split_ifs <;> simp

def demoAuthToken : List Char := "12345".data

def demoParams : List (List Char × List Char) :=
  [("Body".data, "hello there".data), ("From".data, "+15551234567".data)]

def demoBase : WebRequest :=
  ⟨"https://example.com/sms".data, "POST".data, demoParams, none⟩

def demoRequest : WebRequest :=
  { demoBase with
      signatureHeader := some (computeSignature demoAuthToken (dataToSign demoBase)) }

/-- C1: the webhook entry point never performs a rate-limit admission check
— for every auth token and request, `rateChecked` does not occur in its
event trace — yet a correctly signed request with a non-command body does
append messages to the sender's history; the admission check exists only in
`SecurityManager.validate_and_sanitize_request`, which the webhook path
never invokes.  This contradicts the claim (and the specification) that
rate limiting is checked before any history mutation. -/
theorem c1_rate_check_missing_on_webhook_path :
    (∀ (authToken : List Char) (req : WebRequest),
        Ev.rateChecked ∉ (handleSmsWebhook authToken req).2) ∧
    Ev.rateChecked ∈ securityManagerEvents true "+15551234567".data ∧
    (handleSmsWebhook demoAuthToken demoRequest).1 = 200 ∧
    Ev.histAppend ∈ (handleSmsWebhook demoAuthToken demoRequest).2 := by
  refine ⟨?_, by decide, ?_, ?_⟩
  · intro authToken req
    unfold handleSmsWebhook
    split
    · intro hmem
      rcases List.mem_cons.mp hmem with h | h
      · exact absurd h (by decide)
      · exact rateChecked_not_mem_processEvents _ _ h
    · simp
  · have hv : validateRequest demoAuthToken demoRequest = true := by decide
    simp [handleSmsWebhook, hv]
  · have hv : validateRequest demoAuthToken demoRequest = true := by decide
    simp only [handleSmsWebhook, if_pos hv]
    refine List.mem_cons.mpr (Or.inr ?_)
    decide
